import Mathlib

/-!
Verification of the join-buffer and merge engine of `bzt/modules/locustio.py`
(class `SlavesReader`).

Modelling conventions:
* Python `dict`s are modelled as association lists with unique keys; an update
  of an existing key replaces the value in place, a new key is appended at the
  end (insertion order), exactly like a Python dict.
* Timestamp keys of the join buffer are the JSON string keys of
  `num_reqs_per_sec` (the source keeps them as strings and converts with
  `int(key)` / measures them with `len(key)`); `tsVal` models `int(key)` for
  the digit strings actually produced by workers.
* Python text is modelled as `List Char`; `json.loads` together with the
  duck-typed field accesses is abstracted as a parameter
  `jloads : List Char → Option Snapshot` (a raised exception is `none`).
* `DataPoint` / `KPISet` belong to `bzt.modules.aggregator`, which is not part
  of the sources; those parts are modelled from the spec (see the doc comments
  starting with "Modelled from the spec").
* Python float arithmetic on response times is modelled as exact rational
  arithmetic.
-/

/-- Lookup in an association list modelling a Python dict (`d[k]` / `k in d`). -/
def dlookup {α β : Type} [DecidableEq α] (k : α) : List (α × β) → Option β
  | [] => none
  | p :: t => if p.1 = k then some p.2 else dlookup k t

/-- Update in an association list modelling a Python dict assignment `d[k] = v`:
an existing key keeps its position, a new key is appended at the end. -/
def dinsert {α β : Type} [DecidableEq α] (k : α) (v : β) : List (α × β) → List (α × β)
  | [] => [(k, v)]
  | p :: t => if p.1 = k then (k, v) :: t else p :: dinsert k v t

/-- Removal of a key from an association list modelling `d.pop(k)`. -/
def dremove {α β : Type} [DecidableEq α] (k : α) (l : List (α × β)) : List (α × β) :=
  l.filter (fun p => p.1 ≠ k)

/-- Decimal value of a digit string, most significant digit first. -/
def digitsVal : List Char → Nat → Nat
  | [], acc => acc
  | c :: cs, acc => digitsVal cs (acc * 10 + (c.toNat - '0'.toNat))

/-- Numeric value of a timestamp key, modelling Python `int(key)` on the digit
strings produced by workers. -/
def tsVal (s : String) : Nat := digitsVal s.data 0

/-- A timestamp key is canonical when it is the decimal representation of its
numeric value (no leading zeros, no signs); worker-produced epoch-second keys
are canonical. -/
def canonKey (s : String) : Prop := Nat.repr (tsVal s) = s

instance : DecidablePred canonKey := fun s => inferInstanceAs (Decidable (_ = _))

/-- One element of the `stats` array of a worker snapshot line (wire format §6). -/
structure StatsItem where
  name : String
  num_reqs_per_sec : List (String × Nat)
  num_requests : Nat
  total_response_time : Nat
  deriving DecidableEq

/-- One decoded worker snapshot line (wire format §6). -/
structure Snapshot where
  client_id : String
  user_count : Nat
  stats : List StatsItem
  deriving DecidableEq

/-- Modelled from the spec: `KPISet` of `bzt.modules.aggregator` restricted to
its mergeable fields — sample count, concurrency, weighted response-time sum
(§3 "Per-Label Metric Set"). -/
structure KPISet where
  sample_count : Nat
  concurrency : Nat
  sum_rt : ℚ
  deriving DecidableEq

/-- Modelled from the spec: a fresh `KPISet()` with all aggregates at their
defaults. -/
def KPISet.empty : KPISet := ⟨0, 0, 0⟩

/-- Modelled from the spec: `KPISet.merge_kpis` — sample counts sum, weighted
response-time sums add, concurrency combines by summation (§4.4). -/
def merge_kpis (a b : KPISet) : KPISet :=
  ⟨a.sample_count + b.sample_count, a.concurrency + b.concurrency, a.sum_rt + b.sum_rt⟩

/-- Modelled from the spec: `DataPoint` of `bzt.modules.aggregator` restricted
to what the engine uses — the timestamp, the source id, and the CURRENT
section, a mapping from label name to Per-Label Metric Set (§3). -/
structure DataPoint where
  ts : Nat
  source_id : Option String
  current : List (String × KPISet)
  deriving DecidableEq

/-- Modelled from the spec: `DataPoint.merge_point` — for every label of the
other point, merge its metric set into this point's set for that label,
creating the label when absent (§4.4). -/
def merge_point (a b : DataPoint) : DataPoint :=
  { a with current :=
      b.current.foldl (fun acc p =>
        match dlookup p.1 acc with
        | some k => dinsert p.1 (merge_kpis k p.2) acc
        | none => dinsert p.1 p.2 acc) a.current }

/-- Modelled from the spec: `DataPoint.recalculate` computes the derived
per-record statistics from the merged sums (§4.4); it does not change the
mergeable fields, which are all our model carries, so it is the identity
here. -/
def DataPoint.recalculate (p : DataPoint) : DataPoint := p

/-- Modelled from the spec: the derived average response time of a metric set —
summed weighted time divided by summed sample count (§4.4). -/
def KPISet.avg_rt (k : KPISet) : ℚ :=
  if k.sample_count = 0 then 0 else k.sum_rt / (k.sample_count : ℚ)

/-- Conversion of the cumulative total response time from milliseconds to the
seconds used by the aggregates; the source's `/ 1000.0` float division is
modelled as exact rational division. -/
def msToSeconds (n : Nat) : ℚ := (n : ℚ) / 1000

/-- The per-label metric set built inline by `SlavesReader.point_from_locust`
(locustio.py lines 275-280) for one stats item: sample count from
`num_reqs_per_sec[timestamp]`, concurrency from `user_count`, and — only when
`num_requests` is non-zero — the weighted response-time sum
`count * ((total_response_time / 1000.0) / num_requests)`. -/
def kpiset_from_item (timestamp : String) (user_count : Nat) (item : StatsItem) : KPISet :=
  let cnt := (dlookup timestamp item.num_reqs_per_sec).getD 0
  let base : KPISet := { sample_count := cnt, concurrency := user_count, sum_rt := 0 }
  if item.num_requests ≠ 0 then
    { base with sum_rt := (cnt : ℚ) * (msToSeconds item.total_response_time / (item.num_requests : ℚ)) }
  else base

/-- `SlavesReader.point_from_locust` (locustio.py lines 260-286): build a
`DataPoint` for `timestamp` from one worker snapshot, skipping stats items
that report nothing for `timestamp`, storing each item's metric set under its
label, merging every built set into the overall set, and finally storing the
overall set under the empty label. -/
def point_from_locust (timestamp : String) (sid : String) (data : Snapshot) : DataPoint :=
  let r := data.stats.foldl
    (fun (acc : List (String × KPISet) × KPISet) item =>
      if (dlookup timestamp item.num_reqs_per_sec).isSome then
        let kpiset := kpiset_from_item timestamp data.user_count item
        (dinsert item.name kpiset acc.1, merge_kpis acc.2 kpiset)
      else acc)
    ([], KPISet.empty)
  DataPoint.recalculate { ts := tsVal timestamp, source_id := some sid, current := dinsert "" r.2 r.1 }

/-- The join buffer: a dict from timestamp key to a dict from worker id to
that worker's most recent snapshot mentioning the timestamp. -/
abbrev JoinBuffer : Type := List (String × List (String × Snapshot))

/-- `SlavesReader.fill_join_buffer` (locustio.py lines 252-258): for every
stats item and every timestamp key of its `num_reqs_per_sec`, create the
timestamp's entry when absent and set `buffer[timestamp][client_id] = data`. -/
def fill_join_buffer (jb : JoinBuffer) (data : Snapshot) : JoinBuffer :=
  data.stats.foldl
    (fun jb item =>
      item.num_reqs_per_sec.foldl
        (fun (jb : JoinBuffer) tc =>
          dinsert tc.1 (dinsert data.client_id data ((dlookup tc.1 jb).getD [])) jb)
        jb)
    jb

/-- All timestamp keys mentioned by a snapshot's `num_reqs_per_sec` mappings. -/
def snapshotTimestamps (data : Snapshot) : List String :=
  (data.stats.map (fun item => item.num_reqs_per_sec.map Prod.fst)).flatten

/-- The sort key used by `sorted(self.join_buffer.keys(), key=int)`. -/
def tsLe (a b : String) : Prop := tsVal a ≤ tsVal b

instance : DecidableRel tsLe := fun a b => Nat.decLe _ _

instance : IsTotal String tsLe := ⟨fun a b => Nat.le_total _ _⟩

instance : IsTrans String tsLe := ⟨fun _ _ _ => Nat.le_trans⟩

/-- The join-buffer keys sorted by numeric value, as in
`sorted(self.join_buffer.keys(), key=int)`. -/
def sortedKeys (jb : JoinBuffer) : List String :=
  List.insertionSort tsLe (jb.map Prod.fst)

/-- `SlavesReader.get_max_full_ts` (locustio.py lines 234-239): scan the keys
in ascending numeric order and remember `int(key)` of the last key whose
STRING LENGTH is at least `num_slaves` (`len(key) >= self.num_slaves`). -/
def get_max_full_ts (jb : JoinBuffer) (num_slaves : Nat) : Option Nat :=
  (sortedKeys jb).foldl
    (fun max_full_ts key => if num_slaves ≤ key.length then some (tsVal key) else max_full_ts)
    none

/-- Modelled from the spec: the completeness rule of §4.3 — a timestamp is
closed when the number of distinct worker identities that have contributed to
it reaches the expected worker count.  (The inner dict keys are distinct, so
its length is the number of distinct contributing workers.) -/
def closed_spec (jb : JoinBuffer) (expected_worker_count : Nat) (ts : String) : Prop :=
  expected_worker_count ≤ ((dlookup ts jb).getD []).length

instance : ∀ jb n ts, Decidable (closed_spec jb n ts) := fun _ _ _ => Nat.decLe _ _

/-- The body of `SlavesReader.merge_datapoints` for one complete second
(locustio.py lines 226-231): start from `DataPoint(int(key))`, merge in
`point_from_locust` of every worker's snapshot for the second, then
recalculate. -/
def merge_second (key : String) (sec_data : List (String × Snapshot)) : DataPoint :=
  DataPoint.recalculate
    (sec_data.foldl
      (fun point p => merge_point point (point_from_locust key p.1 p.2))
      { ts := tsVal key, source_id := none, current := [] })

/-- The loop of `SlavesReader.merge_datapoints` (locustio.py lines 223-232)
over an already-sorted key list: every key with `int(key) <= max_full_ts` is
popped from the buffer and yields its merged point. -/
def drainKeys (keys : List String) (max_full_ts : Nat) (jb : JoinBuffer) :
    List DataPoint × JoinBuffer :=
  match keys with
  | [] => ([], jb)
  | k :: ks =>
    if tsVal k ≤ max_full_ts then
      let point := merge_second k ((dlookup k jb).getD [])
      let r := drainKeys ks max_full_ts (dremove k jb)
      (point :: r.1, r.2)
    else drainKeys ks max_full_ts jb

/-- `SlavesReader.merge_datapoints` (locustio.py lines 223-232): iterate the
numerically sorted keys, draining every key at or below `max_full_ts`. -/
def merge_datapoints (jb : JoinBuffer) (max_full_ts : Nat) : List DataPoint × JoinBuffer :=
  drainKeys (sortedKeys jb) max_full_ts jb

/-- Split off the first line, up to and including its newline, of a text
buffer — the slicing done by locustio.py lines 213-214, which take the prefix
of `read_buffer` ending at the first newline (inclusive) as `_line` and keep
the rest; `none` when the buffer holds no newline, ending the loop. -/
def splitAtNL : List Char → Option (List Char × List Char)
  | [] => none
  | c :: cs =>
    if c = '\n' then some ([c], cs)
    else
      match splitAtNL cs with
      | none => none
      | some (l, r) => some (c :: l, r)

/-- Result of the decode loop of `SlavesReader._calculate_datapoints`:
the remaining read buffer, the updated join buffer, whether `json.loads`
raised, and (for specification purposes) the lines handed to the decoder, in
order. -/
structure LoopResult where
  read_buffer : List Char
  jb : JoinBuffer
  raised : Bool
  decoded : List (List Char)
  deriving DecidableEq

/-- Character-level scan implementing the `while "\n" in self.read_buffer`
loop of `SlavesReader._calculate_datapoints`: `cur` accumulates the current
line seen so far; at each newline the completed line is decoded and the join
buffer filled; an undecodable line leaves the loop with `raised = true` (the
`json.loads` exception), the line already removed from the buffer; at end of
input the unterminated fragment `cur` is the new read buffer.  The recursion
is structural so that runs on concrete inputs compute; `processLines_eq`
below proves that it satisfies the literal line-slicing step of the source
loop. -/
def processChars (jloads : List Char → Option Snapshot) :
    List Char → List Char → JoinBuffer → LoopResult
  | cur, [], jb => ⟨cur, jb, false, []⟩
  | cur, c :: cs, jb =>
    if c = '\n' then
      match jloads (cur ++ ['\n']) with
      | none => ⟨cs, jb, true, [cur ++ ['\n']]⟩
      | some data =>
        let r := processChars jloads [] cs (fill_join_buffer jb data)
        ⟨r.read_buffer, r.jb, r.raised, (cur ++ ['\n']) :: r.decoded⟩
    else processChars jloads (cur ++ [c]) cs jb

/-- The decode loop of `SlavesReader._calculate_datapoints` (locustio.py
lines 212-215) on the whole read buffer. -/
def processLines (jloads : List Char → Option Snapshot) (buf : List Char) (jb : JoinBuffer) :
    LoopResult :=
  processChars jloads [] buf jb

theorem splitAtNL_eq_none {l : List Char} : splitAtNL l = none ↔ '\n' ∉ l := by
  induction l with
  | nil => simp [splitAtNL]
  | cons c cs ih =>
    rw [splitAtNL]
    by_cases hc : c = '\n'
    · simp [hc]
    · simp only [hc, if_false]
      cases h : splitAtNL cs with
      | none => simp [List.mem_cons, Ne.symm hc, ih.1 h]
      | some p =>
        have h2 : '\n' ∈ cs := by
          by_contra hmem
          rw [ih.2 hmem] at h
          exact Option.noConfusion h
        obtain ⟨l1, r1⟩ := p
        simp [List.mem_cons, h2]

theorem splitAtNL_append_cons (pre rest : List Char) (h : '\n' ∉ pre) :
    splitAtNL (pre ++ '\n' :: rest) = some (pre ++ ['\n'], rest) := by
  induction pre with
  | nil => simp [splitAtNL]
  | cons c cs ih =>
    have hc : c ≠ '\n' := fun hh => h (by simp [hh])
    have hcs : '\n' ∉ cs := fun hh => h (by simp [hh])
    simp only [List.cons_append, splitAtNL, hc, if_false, List.append_eq, ih hcs]

theorem processChars_eq (jloads : List Char → Option Snapshot) :
    ∀ (buf cur : List Char) (jb : JoinBuffer), '\n' ∉ cur →
      processChars jloads cur buf jb =
        match splitAtNL (cur ++ buf) with
        | none => ⟨cur ++ buf, jb, false, []⟩
        | some (line, rest) =>
          match jloads line with
          | none => ⟨rest, jb, true, [line]⟩
          | some data =>
            let r := processChars jloads [] rest (fill_join_buffer jb data)
            ⟨r.read_buffer, r.jb, r.raised, line :: r.decoded⟩ := by
  intro buf
  induction buf with
  | nil =>
    intro cur jb hcur
    rw [List.append_nil, splitAtNL_eq_none.2 hcur]
    rfl
  | cons c cs ih =>
    intro cur jb hcur
    by_cases hc : c = '\n'
    · subst hc
      rw [splitAtNL_append_cons cur cs hcur, processChars]
      cases hjl : jloads (cur ++ ['\n']) <;> simp [hjl]
    · have hcur' : '\n' ∉ cur ++ [c] := by
        intro hh
        rcases List.mem_append.1 hh with hh | hh
        · exact hcur hh
        · have h2 : '\n' = c := by simpa using hh
          exact hc h2.symm
      rw [processChars]
      simp only [hc, if_false]
      rw [ih (cur ++ [c]) jb hcur', List.append_assoc]
      rfl

/-- The structural scan satisfies the literal step of the source loop
(locustio.py lines 212-215): take the prefix of the read buffer up to and
including the first newline as `_line`, drop it from the buffer, decode it and
fill the join buffer; stop when no newline is left. -/
theorem processLines_eq (jloads : List Char → Option Snapshot) (buf : List Char)
    (jb : JoinBuffer) :
    processLines jloads buf jb =
      match splitAtNL buf with
      | none => ⟨buf, jb, false, []⟩
      | some (line, rest) =>
        match jloads line with
        | none => ⟨rest, jb, true, [line]⟩
        | some data =>
          let r := processLines jloads rest (fill_join_buffer jb data)
          ⟨r.read_buffer, r.jb, r.raised, line :: r.decoded⟩ := by
  simpa using processChars_eq jloads buf [] jb (by simp)

/-- The mutable state of one `SlavesReader` (locustio.py lines 200-204):
`join_buffer`, `read_buffer`, and whether `fds` is an open handle. -/
structure ReaderState where
  join_buffer : JoinBuffer
  read_buffer : List Char
  fds_open : Bool
  deriving DecidableEq

/-- The state of a freshly constructed reader (`__init__`). -/
def initState : ReaderState := ⟨[], [], false⟩

/-- Result of one poll of `SlavesReader._calculate_datapoints`: the yielded
points, whether the generator raised, and the state left behind. -/
structure PollResult where
  points : List DataPoint
  raised : Bool
  state : ReaderState
  deriving DecidableEq

/-- The read-and-decode phase of one poll (locustio.py lines 206-215).  `inc`
is the interaction with the file system: `none` when the file does not exist
yet (`__open_file` leaves `fds` unset), `some s` when it exists and
`fds.read(1024 * 1024)` returns the newly appended text `s`.  When a handle is
open (or just opened this poll) the increment is appended to `read_buffer` and
the complete lines are decoded into the join buffer; otherwise nothing is
read. -/
def pollScan (jloads : List Char → Option Snapshot) (inc : Option (List Char))
    (st : ReaderState) : LoopResult :=
  if st.fds_open || inc.isSome then
    processLines jloads (st.read_buffer ++ inc.getD []) st.join_buffer
  else ⟨st.read_buffer, st.join_buffer, false, []⟩

/-- The drain phase of one poll, from the loop result of `pollScan`: unless a
decode exception aborted the generator, `get_max_full_ts` /
`merge_datapoints` drain the complete seconds (locustio.py lines 217-221). -/
def pollDrain (num_slaves : Nat) (fdsOpen : Bool) (r : LoopResult) : PollResult :=
  if r.raised then ⟨[], true, ⟨r.jb, r.read_buffer, fdsOpen⟩⟩
  else
    match get_max_full_ts r.jb num_slaves with
    | none => ⟨[], false, ⟨r.jb, r.read_buffer, fdsOpen⟩⟩
    | some max_full_ts =>
      ⟨(merge_datapoints r.jb max_full_ts).1, false,
        ⟨(merge_datapoints r.jb max_full_ts).2, r.read_buffer, fdsOpen⟩⟩

/-- One poll of `SlavesReader._calculate_datapoints` (locustio.py lines
206-221): the read-and-decode phase followed by the drain phase. -/
def poll (jloads : List Char → Option Snapshot) (num_slaves : Nat)
    (inc : Option (List Char)) (st : ReaderState) : PollResult :=
  pollDrain num_slaves (st.fds_open || inc.isSome) (pollScan jloads inc st)

/-- A whole run: the per-poll outcomes (points and whether the poll raised)
of a sequence of polls from a given state. -/
def pollAll (jloads : List Char → Option Snapshot) (num_slaves : Nat) :
    List (Option (List Char)) → ReaderState → List (List DataPoint × Bool)
  | [], _ => []
  | inc :: incs, st =>
    let r := poll jloads num_slaves inc st
    (r.points, r.raised) :: pollAll jloads num_slaves incs r.state

/-! Basic lemmas about the dict model. -/

theorem dlookup_dinsert_self {α β : Type} [DecidableEq α] (k : α) (v : β) (l : List (α × β)) :
    dlookup k (dinsert k v l) = some v := by
  induction l with
  | nil => simp [dinsert, dlookup]
  | cons p t ih =>
    by_cases h : p.1 = k
    · simp [dinsert, dlookup, h]
    · simp [dinsert, dlookup, h, ih]

theorem dlookup_dinsert_other {α β : Type} [DecidableEq α] {k k' : α} (hne : k' ≠ k)
    (v : β) (l : List (α × β)) : dlookup k' (dinsert k v l) = dlookup k' l := by
  induction l with
  | nil => simp [dinsert, dlookup, Ne.symm hne]
  | cons p t ih =>
    by_cases h : p.1 = k
    · subst h
      simp [dinsert, dlookup, Ne.symm hne]
    · simp [dinsert, dlookup, h, ih]

theorem dlookup_dremove_other {α β : Type} [DecidableEq α] {k k' : α} (hne : k' ≠ k)
    (l : List (α × β)) : dlookup k' (dremove k l) = dlookup k' l := by
  induction l with
  | nil => rfl
  | cons p t ih =>
    by_cases h : p.1 = k
    · subst h
      have hr : dremove p.1 (p :: t) = dremove p.1 t := by
        simp [dremove, List.filter_cons]
      rw [hr, ih]
      simp [dlookup, Ne.symm hne]
    · have hr : dremove k (p :: t) = p :: dremove k t := by
        simp [dremove, List.filter_cons, h]
      rw [hr]
      simp [dlookup, ih]

theorem mem_keys_dinsert {α β : Type} [DecidableEq α] (k k' : α) (v : β) (l : List (α × β)) :
    k' ∈ (dinsert k v l).map Prod.fst ↔ k' = k ∨ k' ∈ l.map Prod.fst := by
  induction l with
  | nil => simp [dinsert]
  | cons p t ih =>
    by_cases h : p.1 = k
    · subst h
      simp [dinsert] <;> tauto
    · simp [dinsert, h, ih] <;> tauto

theorem nodup_keys_dinsert {α β : Type} [DecidableEq α] (k : α) (v : β) {l : List (α × β)}
    (hl : (l.map Prod.fst).Nodup) : ((dinsert k v l).map Prod.fst).Nodup := by
  induction l with
  | nil => simp [dinsert]
  | cons p t ih =>
    by_cases h : p.1 = k
    · subst h
      simpa [dinsert] using hl
    · simp only [List.map_cons, List.nodup_cons] at hl
      have hrec := ih hl.2
      simp only [dinsert, h, if_false, List.map_cons, List.nodup_cons]
      refine ⟨fun hc => ?_, hrec⟩
      rcases (mem_keys_dinsert k p.1 v t).1 hc with h1 | h1
      · exact h h1
      · exact hl.1 h1

theorem dlookup_isSome_of_mem_keys {α β : Type} [DecidableEq α] {k : α} {l : List (α × β)}
    (h : k ∈ l.map Prod.fst) : (dlookup k l).isSome := by
  induction l with
  | nil => simp at h
  | cons p t ih =>
    by_cases hp : p.1 = k
    · simp [dlookup, hp]
    · simp only [List.map_cons, List.mem_cons] at h
      rcases h with h | h
      · exact absurd h.symm hp
      · simp [dlookup, hp, ih h]

theorem mem_keys_of_dlookup_isSome {α β : Type} [DecidableEq α] {k : α} {l : List (α × β)}
    (h : (dlookup k l).isSome) : k ∈ l.map Prod.fst := by
  induction l with
  | nil => simp [dlookup] at h
  | cons p t ih =>
    by_cases hp : p.1 = k
    · simp [hp.symm]
    · simp only [dlookup, hp, if_false] at h
      simp [ih h]

theorem canonKey_inj {a b : String} (ha : canonKey a) (hb : canonKey b)
    (h : tsVal a = tsVal b) : a = b := by
  unfold canonKey at ha hb
  rw [← ha, ← hb, h]

theorem sortedKeys_perm (jb : JoinBuffer) : (sortedKeys jb).Perm (jb.map Prod.fst) :=
  List.perm_insertionSort tsLe (jb.map Prod.fst)

theorem sortedKeys_sorted (jb : JoinBuffer) : (sortedKeys jb).Sorted tsLe :=
  List.sorted_insertionSort tsLe (jb.map Prod.fst)

/-! Concrete snapshots and decoders used by witnesses and counterexamples. -/

/-- A snapshot of worker A reporting 5 requests in second 100. -/
def exSnapA : Snapshot := ⟨"A", 3, [⟨"lbl", [("100", 5)], 5, 1000⟩]⟩

/-- A snapshot of worker A reporting seconds 100 and 101. -/
def exSnapA2 : Snapshot := ⟨"A", 3, [⟨"lbl", [("100", 5), ("101", 2)], 7, 1400⟩]⟩

/-- A snapshot of worker B reporting second 101 only. -/
def exSnapB : Snapshot := ⟨"B", 4, [⟨"lbl", [("101", 1)], 1, 100⟩]⟩

/-- A decoder for the concrete runs: the line `a` decodes to `exSnapA`,
everything else is malformed. -/
def exDecode : List Char → Option Snapshot :=
  fun l => if l = ['a', '\n'] then some exSnapA else none

/-- C1, code_bug: the source's completeness check (locustio.py line 237)
compares `len(key)` — the number of characters of the timestamp string —
against `num_slaves` instead of counting distinct contributing workers.  With
`expected_worker_count = 2` and a single contribution by worker A for second
100, the key `"100"` has three characters, so `get_max_full_ts` declares it
full and the poll drains a record for second 100, although only one distinct
worker contributed and the spec's completeness rule (`closed_spec`) does not
hold for any timestamp. -/
theorem C1_code_closes_on_key_length_not_contributors :
    get_max_full_ts (fill_join_buffer [] exSnapA) 2 = some 100 ∧
    ((dlookup "100" (fill_join_buffer [] exSnapA)).getD []).length = 1 ∧
    ¬ closed_spec (fill_join_buffer [] exSnapA) 2 "100" ∧
    (poll exDecode 2 (some ['a', '\n']) initState).points.map DataPoint.ts = [100] := by
  refine ⟨by decide, by decide, by decide, by decide⟩

/-! Lemmas about the drain step. -/

theorem merge_point_ts (a b : DataPoint) : (merge_point a b).ts = a.ts := rfl

theorem foldl_merge_point_ts (f : String × Snapshot → DataPoint) :
    ∀ (sec : List (String × Snapshot)) (init : DataPoint),
      (sec.foldl (fun pt p => merge_point pt (f p)) init).ts = init.ts := by
  intro sec
  induction sec with
  | nil => intro init; rfl
  | cons p t ih =>
    intro init
    simpa [List.foldl_cons] using ih (merge_point init (f p))

theorem merge_second_ts (k : String) (sec : List (String × Snapshot)) :
    (merge_second k sec).ts = tsVal k := by
  simpa [merge_second, DataPoint.recalculate] using
    foldl_merge_point_ts (fun p => point_from_locust k p.1 p.2) sec _

theorem drainKeys_eq (max_full_ts : Nat) :
    ∀ (keys : List String) (jb : JoinBuffer), keys.Nodup →
      drainKeys keys max_full_ts jb =
        ((keys.filter fun k => decide (tsVal k ≤ max_full_ts)).map
           fun k => merge_second k ((dlookup k jb).getD []),
         jb.filter fun p => !(decide (tsVal p.1 ≤ max_full_ts) && decide (p.1 ∈ keys))) := by
  intro keys
  induction keys with
  | nil => intro jb _; simp [drainKeys]
  | cons k ks ih =>
    intro jb hnd
    have hk : k ∉ ks := (List.nodup_cons.1 hnd).1
    have hnd' : ks.Nodup := (List.nodup_cons.1 hnd).2
    by_cases hle : tsVal k ≤ max_full_ts
    · rw [drainKeys, if_pos hle, ih (dremove k jb) hnd']
      refine Prod.ext ?_ ?_
      · simp only [List.filter_cons, hle, decide_True, List.map_cons, decide_eq_true_eq, if_pos]
        refine congrArg _ (List.map_congr_left ?_)
        intro k' hk'
        have hk'ks : k' ∈ ks := List.mem_of_mem_filter hk'
        have : k' ≠ k := fun h => hk (h ▸ hk'ks)
        rw [dlookup_dremove_other this]
      · show (dremove k jb).filter _ = jb.filter _
        rw [dremove, List.filter_filter]
        refine List.filter_congr ?_
        intro p _
        by_cases hpk : p.1 = k
        · simp [hpk, hle]
        · simp [hpk, List.mem_cons]
    · rw [drainKeys, if_neg hle, ih jb hnd']
      refine Prod.ext ?_ ?_
      · simp [List.filter_cons, hle]
      · refine List.filter_congr ?_
        intro p _
        by_cases hpk : p.1 = k
        · simp [hpk, hle]
        · simp [hpk, List.mem_cons]

theorem merge_datapoints_eq (jb : JoinBuffer) (m : Nat) (h : (jb.map Prod.fst).Nodup) :
    merge_datapoints jb m =
      (((sortedKeys jb).filter fun k => decide (tsVal k ≤ m)).map
         fun k => merge_second k ((dlookup k jb).getD []),
       jb.filter fun p => decide (m < tsVal p.1)) := by
  have hperm := sortedKeys_perm jb
  have hnd : (sortedKeys jb).Nodup := hperm.nodup_iff.2 h
  rw [merge_datapoints, drainKeys_eq m _ _ hnd]
  refine congrArg _ ?_
  refine List.filter_congr ?_
  intro p hp
  have hmem : p.1 ∈ sortedKeys jb := hperm.mem_iff.2 (List.mem_map_of_mem _ hp)
  by_cases hle : tsVal p.1 ≤ m
  · simp [hmem, hle, Nat.not_lt.2 hle]
  · simp [hmem, hle, Nat.lt_of_not_le hle]

theorem map_tsVal_keys (jb : JoinBuffer) :
    (jb.map fun p => tsVal p.1) = (jb.map Prod.fst).map tsVal := by
  rw [List.map_map]; rfl

theorem nodup_keys_of_numeric {jb : JoinBuffer} (h : (jb.map fun p => tsVal p.1).Nodup) :
    (jb.map Prod.fst).Nodup :=
  List.Nodup.of_map tsVal (by rwa [map_tsVal_keys] at h)

theorem merge_datapoints_ts_sorted (jb : JoinBuffer) (m : Nat)
    (h : (jb.map fun p => tsVal p.1).Nodup) :
    List.Sorted (· < ·) ((merge_datapoints jb m).1.map DataPoint.ts) := by
  have hkeys := nodup_keys_of_numeric h
  rw [merge_datapoints_eq jb m hkeys]
  have hmapts :
      ((((sortedKeys jb).filter fun k => decide (tsVal k ≤ m)).map
          (fun k => merge_second k ((dlookup k jb).getD []))).map DataPoint.ts) =
        ((sortedKeys jb).filter fun k => decide (tsVal k ≤ m)).map tsVal := by
    rw [List.map_map]
    exact List.map_congr_left fun k _ => merge_second_ts k _
  rw [hmapts]
  have hsorted : List.Pairwise tsLe ((sortedKeys jb).filter
      fun k => decide (tsVal k ≤ m)) :=
    List.Pairwise.filter _ (sortedKeys_sorted jb)
  have hle : List.Pairwise (· ≤ ·) (((sortedKeys jb).filter
      fun k => decide (tsVal k ≤ m)).map tsVal) :=
    List.Pairwise.map tsVal (fun _ _ hab => hab) hsorted
  have hnd1 : ((sortedKeys jb).map tsVal).Nodup := by
    have hperm : ((sortedKeys jb).map tsVal).Perm ((jb.map Prod.fst).map tsVal) :=
      (sortedKeys_perm jb).map tsVal
    exact hperm.nodup_iff.2 (by rwa [map_tsVal_keys] at h)
  have hnd : (((sortedKeys jb).filter fun k => decide (tsVal k ≤ m)).map tsVal).Nodup :=
    List.Nodup.sublist (List.Sublist.map tsVal (List.filter_sublist _)) hnd1
  exact (hle.and hnd).imp fun hab => lt_of_le_of_ne hab.1 hab.2

theorem merge_datapoints_ts_le (jb : JoinBuffer) (m : Nat)
    (h : (jb.map Prod.fst).Nodup) :
    ∀ p ∈ (merge_datapoints jb m).1, p.ts ≤ m := by
  intro p hp
  rw [merge_datapoints_eq jb m h] at hp
  rcases List.mem_map.1 hp with ⟨k, hk, hpk⟩
  have hle : decide (tsVal k ≤ m) = true := (List.mem_filter.1 hk).2
  rw [← hpk, merge_second_ts]
  exact of_decide_eq_true hle

theorem merge_datapoints_rest_gt (jb : JoinBuffer) (m : Nat)
    (h : (jb.map Prod.fst).Nodup) :
    ∀ e ∈ (merge_datapoints jb m).2, m < tsVal e.1 := by
  intro e he
  rw [merge_datapoints_eq jb m h] at he
  exact of_decide_eq_true (List.mem_filter.1 he).2

/-- C2: given any greatest closed timestamp `max_closed`, the drain step
(`merge_datapoints`) returns exactly the buffered entries with timestamp at
most `max_closed` — each merged by `merge_second`, including entries that have
not themselves reached the completeness threshold — in strictly ascending
numeric timestamp order, and leaves buffered exactly the entries with
timestamp greater than `max_closed`.  The hypothesis states the dict
invariant: the buffered timestamps have pairwise distinct numeric values. -/
theorem C2_drain_emits_all_le_max_in_ascending_order (jb : JoinBuffer) (max_closed : Nat)
    (h : (jb.map fun p => tsVal p.1).Nodup) :
    (merge_datapoints jb max_closed).1 =
        ((sortedKeys jb).filter fun k => decide (tsVal k ≤ max_closed)).map
          (fun k => merge_second k ((dlookup k jb).getD [])) ∧
    List.Sorted (· < ·) ((merge_datapoints jb max_closed).1.map DataPoint.ts) ∧
    (merge_datapoints jb max_closed).2 = jb.filter fun p => decide (max_closed < tsVal p.1) := by
  have hkeys := nodup_keys_of_numeric h
  exact ⟨by rw [merge_datapoints_eq jb max_closed hkeys],
         merge_datapoints_ts_sorted jb max_closed h,
         by rw [merge_datapoints_eq jb max_closed hkeys]⟩

/-- The join buffer after worker A reported seconds 100 and 101 and worker B
reported second 101. -/
def exBufferAB : JoinBuffer := fill_join_buffer (fill_join_buffer [] exSnapA2) exSnapB

/-- Witness for C2 at a concrete buffer and `max_closed = 100`. -/
theorem C2_drain_emits_all_le_max_in_ascending_order_witness :
    (exBufferAB.map fun p => tsVal p.1).Nodup ∧
    ((merge_datapoints exBufferAB 100).1 =
        ((sortedKeys exBufferAB).filter fun k => decide (tsVal k ≤ 100)).map
          (fun k => merge_second k ((dlookup k exBufferAB).getD [])) ∧
    List.Sorted (· < ·) ((merge_datapoints exBufferAB 100).1.map DataPoint.ts) ∧
    (merge_datapoints exBufferAB 100).2 =
        exBufferAB.filter fun p => decide (100 < tsVal p.1)) :=
  ⟨by decide, C2_drain_emits_all_le_max_in_ascending_order exBufferAB 100 (by decide)⟩

/-! Invariants of the join buffer across ingestion. -/

theorem mem_snapshotTimestamps {data : Snapshot} {k : String} :
    k ∈ snapshotTimestamps data ↔
      ∃ item ∈ data.stats, k ∈ item.num_reqs_per_sec.map Prod.fst := by
  simp [snapshotTimestamps, List.mem_flatten]

theorem fill_inner_keys_sub (data : Snapshot) :
    ∀ (l : List (String × Nat)) (jb : JoinBuffer) (k : String),
      k ∈ ((l.foldl (fun (jb : JoinBuffer) tc =>
              dinsert tc.1 (dinsert data.client_id data ((dlookup tc.1 jb).getD [])) jb)
            jb).map Prod.fst) →
      k ∈ jb.map Prod.fst ∨ k ∈ l.map Prod.fst := by
  intro l
  induction l with
  | nil => intro jb k hk; exact Or.inl hk
  | cons tc t ih =>
    intro jb k hk
    rw [List.foldl_cons] at hk
    rcases ih _ k hk with hk2 | hk2
    · rcases (mem_keys_dinsert tc.1 k _ jb).1 hk2 with h2 | h2
      · exact Or.inr (by simp [h2])
      · exact Or.inl h2
    · exact Or.inr (by simp [hk2])

theorem fill_inner_keys_nodup (data : Snapshot) :
    ∀ (l : List (String × Nat)) (jb : JoinBuffer),
      (jb.map Prod.fst).Nodup →
      ((l.foldl (fun (jb : JoinBuffer) tc =>
          dinsert tc.1 (dinsert data.client_id data ((dlookup tc.1 jb).getD [])) jb)
        jb).map Prod.fst).Nodup := by
  intro l
  induction l with
  | nil => intro jb h; exact h
  | cons tc t ih =>
    intro jb h
    rw [List.foldl_cons]
    exact ih _ (nodup_keys_dinsert tc.1 _ h)

theorem fill_join_buffer_keys_sub (data : Snapshot) (jb : JoinBuffer) (k : String)
    (hk : k ∈ (fill_join_buffer jb data).map Prod.fst) :
    k ∈ jb.map Prod.fst ∨ k ∈ snapshotTimestamps data := by
  rw [fill_join_buffer] at hk
  rw [mem_snapshotTimestamps]
  revert hk
  have : ∀ (stats : List StatsItem) (jb : JoinBuffer),
      k ∈ ((stats.foldl (fun jb item =>
              item.num_reqs_per_sec.foldl (fun (jb : JoinBuffer) tc =>
                dinsert tc.1 (dinsert data.client_id data ((dlookup tc.1 jb).getD [])) jb) jb)
            jb).map Prod.fst) →
      k ∈ jb.map Prod.fst ∨ ∃ item ∈ stats, k ∈ item.num_reqs_per_sec.map Prod.fst := by
    intro stats
    induction stats with
    | nil => intro jb hk; exact Or.inl hk
    | cons item t ih =>
      intro jb hk
      rw [List.foldl_cons] at hk
      rcases ih _ hk with hk2 | hk2
      · rcases fill_inner_keys_sub data item.num_reqs_per_sec jb k hk2 with h2 | h2
        · exact Or.inl h2
        · exact Or.inr ⟨item, by simp, h2⟩
      · rcases hk2 with ⟨it, hit, hmem⟩
        exact Or.inr ⟨it, by simp [hit], hmem⟩
  intro hk
  rcases this data.stats jb hk with h | h
  · exact Or.inl h
  · exact Or.inr h

theorem fill_join_buffer_keys_nodup (data : Snapshot) (jb : JoinBuffer)
    (h : (jb.map Prod.fst).Nodup) : ((fill_join_buffer jb data).map Prod.fst).Nodup := by
  rw [fill_join_buffer]
  revert jb
  induction data.stats with
  | nil => intro jb h; exact h
  | cons item t ih =>
    intro jb h
    rw [List.foldl_cons]
    exact ih _ (fill_inner_keys_nodup data item.num_reqs_per_sec jb h)

theorem processChars_jb_preserves (jloads : List Char → Option Snapshot)
    (P : JoinBuffer → Prop)
    (hstep : ∀ (jb : JoinBuffer) (line : List Char) (data : Snapshot),
      jloads line = some data → P jb → P (fill_join_buffer jb data)) :
    ∀ (buf cur : List Char) (jb : JoinBuffer), P jb →
      P ((processChars jloads cur buf jb).jb) := by
  intro buf
  induction buf with
  | nil => intro cur jb hP; exact hP
  | cons c cs ih =>
    intro cur jb hP
    rw [processChars]
    by_cases hc : c = '\n'
    · rw [if_pos hc]
      cases hjl : jloads (cur ++ ['\n']) with
      | none => exact hP
      | some d => exact ih [] (fill_join_buffer jb d) (hstep jb _ d hjl hP)
    · rw [if_neg hc]
      exact ih (cur ++ [c]) jb hP

theorem pollScan_jb_preserves (jloads : List Char → Option Snapshot)
    (inc : Option (List Char)) (st : ReaderState) (P : JoinBuffer → Prop)
    (hstep : ∀ (jb : JoinBuffer) (line : List Char) (data : Snapshot),
      jloads line = some data → P jb → P (fill_join_buffer jb data))
    (h0 : P st.join_buffer) : P (pollScan jloads inc st).jb := by
  rw [pollScan]
  split
  · exact processChars_jb_preserves jloads P hstep _ [] st.join_buffer h0
  · exact h0

theorem numeric_nodup_of_canon (jb : JoinBuffer) (hnd : (jb.map Prod.fst).Nodup)
    (hc : ∀ k ∈ jb.map Prod.fst, canonKey k) :
    (jb.map fun p => tsVal p.1).Nodup := by
  rw [map_tsVal_keys]
  refine List.Nodup.map_on ?_ hnd
  intro x hx y hy hxy
  exact canonKey_inj (hc x hx) (hc y hy) hxy

/-- C3, counterexample: the engine keeps no memory of drained timestamps, so a
snapshot ingested after a drain re-creates the buffer entry and the timestamp
is emitted again.  With one expected worker, feeding the same snapshot line in
two successive polls makes both polls emit a Finalized Record for second 100:
the emitted timestamps [100, 100] are not strictly increasing across the
lifetime of the engine and 100 is emitted twice. -/
theorem C3_counterexample_timestamp_emitted_twice :
    (pollAll exDecode 1 [some ['a', '\n'], some ['a', '\n']] initState).map
        (fun r => r.1.map DataPoint.ts) = [[100], [100]] := by
  decide

/-- C3, amended: within a single poll the emitted timestamps are strictly
increasing and a drained entry is destroyed — no emitted timestamp remains in
the join buffer the poll leaves behind.  (Across polls the claimed invariant
fails: a later snapshot may re-insert a drained timestamp, see the
counterexample.)  Hypotheses: the buffered keys are a dict (no duplicate
keys), all buffered keys are canonical decimal strings, and every snapshot the
decoder can produce carries canonical timestamp keys. -/
theorem C3_amended_within_poll_increasing_and_drained_removed
    (jloads : List Char → Option Snapshot) (num_slaves : Nat) (inc : Option (List Char))
    (st : ReaderState)
    (h1 : (st.join_buffer.map Prod.fst).Nodup)
    (h2 : ∀ k ∈ st.join_buffer.map Prod.fst, canonKey k)
    (h3 : ∀ (line : List Char) (data : Snapshot), jloads line = some data →
      ∀ k ∈ snapshotTimestamps data, canonKey k) :
    List.Sorted (· < ·) ((poll jloads num_slaves inc st).points.map DataPoint.ts) ∧
    ∀ p ∈ (poll jloads num_slaves inc st).points,
      ∀ e ∈ (poll jloads num_slaves inc st).state.join_buffer, tsVal e.1 ≠ p.ts := by
  have hstep : ∀ (jb : JoinBuffer) (line : List Char) (data : Snapshot),
      jloads line = some data →
      ((jb.map Prod.fst).Nodup ∧ ∀ k ∈ jb.map Prod.fst, canonKey k) →
      (((fill_join_buffer jb data).map Prod.fst).Nodup ∧
        ∀ k ∈ (fill_join_buffer jb data).map Prod.fst, canonKey k) := by
    intro jb line data hjl hP
    refine ⟨fill_join_buffer_keys_nodup data jb hP.1, ?_⟩
    intro k hk
    rcases fill_join_buffer_keys_sub data jb k hk with h | h
    · exact hP.2 k h
    · exact h3 line data hjl k h
  have hPscan := pollScan_jb_preserves jloads inc st _ hstep ⟨h1, h2⟩
  rw [poll]
  generalize hgen : pollScan jloads inc st = r at hPscan
  rw [pollDrain]
  by_cases hraised : r.raised = true
  · simp [hraised]
  · simp only [hraised, Bool.false_eq_true, if_false]
    cases hm : get_max_full_ts r.jb num_slaves with
    | none => simp
    | some m =>
      constructor
      · exact merge_datapoints_ts_sorted r.jb m (numeric_nodup_of_canon r.jb hPscan.1 hPscan.2)
      · intro p hp e he
        have hple := merge_datapoints_ts_le r.jb m hPscan.1 p hp
        have hgt := merge_datapoints_rest_gt r.jb m hPscan.1 e he
        omega

/-- Witness for the amended C3 at a concrete poll. -/
theorem C3_amended_within_poll_increasing_and_drained_removed_witness :
    ((initState.join_buffer.map Prod.fst).Nodup ∧
      (∀ k ∈ initState.join_buffer.map Prod.fst, canonKey k) ∧
      (∀ (line : List Char) (data : Snapshot), exDecode line = some data →
        ∀ k ∈ snapshotTimestamps data, canonKey k)) ∧
    (List.Sorted (· < ·)
        ((poll exDecode 2 (some ['a', '\n']) initState).points.map DataPoint.ts) ∧
      ∀ p ∈ (poll exDecode 2 (some ['a', '\n']) initState).points,
        ∀ e ∈ (poll exDecode 2 (some ['a', '\n']) initState).state.join_buffer,
          tsVal e.1 ≠ p.ts) := by
  have h3 : ∀ (line : List Char) (data : Snapshot), exDecode line = some data →
      ∀ k ∈ snapshotTimestamps data, canonKey k := by
    intro line data hl k hk
    rw [exDecode] at hl
    by_cases hline : line = ['a', '\n']
    · rw [if_pos hline] at hl
      obtain rfl : exSnapA = data := by injection hl
      have hk2 : k = "100" := by simpa [snapshotTimestamps, exSnapA] using hk
      subst hk2
      decide
    · rw [if_neg hline] at hl
      exact Option.noConfusion hl
  exact ⟨⟨by decide, by decide, h3⟩,
    C3_amended_within_poll_increasing_and_drained_removed exDecode 2 (some ['a', '\n'])
      initState (by decide) (by decide) h3⟩

/-! Empty-source polls. -/

theorem poll_empty_state (jloads : List Char → Option Snapshot) (num_slaves : Nat)
    (inc : Option (List Char)) (hinc : inc = none ∨ inc = some [])
    (st : ReaderState) (hjb : st.join_buffer = []) (hrb : st.read_buffer = []) :
    (poll jloads num_slaves inc st).points = [] ∧
    (poll jloads num_slaves inc st).raised = false ∧
    (poll jloads num_slaves inc st).state.join_buffer = [] ∧
    (poll jloads num_slaves inc st).state.read_buffer = [] := by
  have hscan : pollScan jloads inc st = ⟨[], [], false, []⟩ := by
    rw [pollScan]
    split
    · rcases hinc with rfl | rfl
      · rw [hrb, hjb]; rfl
      · rw [hrb, hjb]; rfl
    · rw [hrb, hjb]
  rw [poll, hscan]
  exact ⟨rfl, rfl, rfl, rfl⟩

/-- C8: over a data source that is absent (`none`) or empty (`some []`) on
every poll, every poll of the engine's lifetime returns zero Finalized Records
and raises no error; the reader state stays ready to retry. -/
theorem C8_absent_or_empty_source_yields_nothing_and_no_error
    (jloads : List Char → Option Snapshot) (num_slaves : Nat)
    (incs : List (Option (List Char)))
    (hempty : ∀ inc ∈ incs, inc = none ∨ inc = some []) :
    ∀ r ∈ pollAll jloads num_slaves incs initState, r = ([], false) := by
  have key : ∀ (l : List (Option (List Char))), (∀ inc ∈ l, inc = none ∨ inc = some []) →
      ∀ st : ReaderState, st.join_buffer = [] → st.read_buffer = [] →
      ∀ r ∈ pollAll jloads num_slaves l st, r = ([], false) := by
    intro l
    induction l with
    | nil => intro _ st _ _ r hr; simp [pollAll] at hr
    | cons inc t ih =>
      intro hemp st hjb hrb r hr
      have h := poll_empty_state jloads num_slaves inc (hemp inc (by simp)) st hjb hrb
      rw [pollAll] at hr
      rcases List.mem_cons.1 hr with hr | hr
      · rw [hr, h.1, h.2.1]
      · exact ih (fun i hi => hemp i (by simp [hi])) _ h.2.2.1 h.2.2.2 r hr
  exact key incs hempty initState rfl rfl

/-- Witness for C8 on a concrete three-poll run over an absent, then empty,
then absent source. -/
theorem C8_absent_or_empty_source_yields_nothing_and_no_error_witness :
    (∀ inc ∈ ([none, some [], none] : List (Option (List Char))),
        inc = none ∨ inc = some []) ∧
    ∀ r ∈ pollAll exDecode 2 [none, some [], none] initState, r = ([], false) :=
  ⟨by decide,
    C8_absent_or_empty_source_yields_nothing_and_no_error exDecode 2
      [none, some [], none] (by decide)⟩

/-! Frame properties of ingestion. -/

theorem fill_inner_lookup_other_ts (data : Snapshot) (ts : String) :
    ∀ (l : List (String × Nat)) (jb : JoinBuffer), ts ∉ l.map Prod.fst →
      dlookup ts (l.foldl (fun (jb : JoinBuffer) tc =>
          dinsert tc.1 (dinsert data.client_id data ((dlookup tc.1 jb).getD [])) jb) jb) =
        dlookup ts jb := by
  intro l
  induction l with
  | nil => intro jb _; rfl
  | cons tc t ih =>
    intro jb hts
    have h1 : ts ≠ tc.1 := fun h => hts (by simp [h])
    have h2 : ts ∉ t.map Prod.fst := fun h => hts (by simp [h])
    rw [List.foldl_cons, ih _ h2, dlookup_dinsert_other h1]

theorem fill_lookup_other_ts (data : Snapshot) (jb : JoinBuffer) (ts : String)
    (h : ts ∉ snapshotTimestamps data) :
    dlookup ts (fill_join_buffer jb data) = dlookup ts jb := by
  have hstats : ∀ item ∈ data.stats, ts ∉ item.num_reqs_per_sec.map Prod.fst := by
    intro item hitem hmem
    exact h (mem_snapshotTimestamps.2 ⟨item, hitem, hmem⟩)
  have key : ∀ (stats : List StatsItem),
      (∀ item ∈ stats, ts ∉ item.num_reqs_per_sec.map Prod.fst) →
      ∀ jb2 : JoinBuffer,
        dlookup ts (stats.foldl (fun jb2 item =>
          item.num_reqs_per_sec.foldl (fun (jb2 : JoinBuffer) tc =>
            dinsert tc.1 (dinsert data.client_id data ((dlookup tc.1 jb2).getD [])) jb2) jb2)
          jb2) = dlookup ts jb2 := by
    intro stats
    induction stats with
    | nil => intro _ jb2; rfl
    | cons item t ih =>
      intro hst jb2
      rw [List.foldl_cons, ih (fun i hi => hst i (by simp [hi])) _,
        fill_inner_lookup_other_ts data ts _ jb2 (hst item (by simp))]
  exact key data.stats hstats jb

theorem fill_inner_lookup_other_worker (data : Snapshot) {w : String}
    (hw : w ≠ data.client_id) :
    ∀ (l : List (String × Nat)) (jb : JoinBuffer) (ts : String),
      dlookup w ((dlookup ts (l.foldl (fun (jb : JoinBuffer) tc =>
          dinsert tc.1 (dinsert data.client_id data ((dlookup tc.1 jb).getD [])) jb) jb)).getD []) =
        dlookup w ((dlookup ts jb).getD []) := by
  intro l
  induction l with
  | nil => intro jb ts; rfl
  | cons tc t ih =>
    intro jb ts
    rw [List.foldl_cons, ih]
    by_cases hts : ts = tc.1
    · subst hts
      rw [dlookup_dinsert_self, Option.getD_some, dlookup_dinsert_other hw]
    · rw [dlookup_dinsert_other hts]

theorem fill_lookup_other_worker (data : Snapshot) (jb : JoinBuffer) {w : String}
    (hw : w ≠ data.client_id) (ts : String) :
    dlookup w ((dlookup ts (fill_join_buffer jb data)).getD []) =
      dlookup w ((dlookup ts jb).getD []) := by
  have key : ∀ (stats : List StatsItem) (jb2 : JoinBuffer),
      dlookup w ((dlookup ts (stats.foldl (fun jb2 item =>
          item.num_reqs_per_sec.foldl (fun (jb2 : JoinBuffer) tc =>
            dinsert tc.1 (dinsert data.client_id data ((dlookup tc.1 jb2).getD [])) jb2) jb2)
          jb2)).getD []) = dlookup w ((dlookup ts jb2).getD []) := by
    intro stats
    induction stats with
    | nil => intro jb2; rfl
    | cons item t ih =>
      intro jb2
      rw [List.foldl_cons, ih, fill_inner_lookup_other_worker data hw]
  exact key data.stats jb

theorem fill_join_buffer_empty_maps (data : Snapshot) (jb : JoinBuffer)
    (h : ∀ item ∈ data.stats, item.num_reqs_per_sec = []) :
    fill_join_buffer jb data = jb := by
  have key : ∀ (stats : List StatsItem),
      (∀ item ∈ stats, item.num_reqs_per_sec = []) →
      ∀ jb2 : JoinBuffer,
        (stats.foldl (fun jb2 item =>
          item.num_reqs_per_sec.foldl (fun (jb2 : JoinBuffer) tc =>
            dinsert tc.1 (dinsert data.client_id data ((dlookup tc.1 jb2).getD [])) jb2) jb2)
          jb2) = jb2 := by
    intro stats
    induction stats with
    | nil => intro _ jb2; rfl
    | cons item t ih =>
      intro hst jb2
      rw [List.foldl_cons, hst item (by simp), List.foldl_nil,
        ih (fun i hi => hst i (by simp [hi]))]
  exact key data.stats h jb

/-- C10: ingesting one snapshot touches the join buffer only at the
timestamps of the snapshot's per-second mappings, and within a touched
timestamp only the entry of the snapshot's own worker: any other timestamp's
entry and any other worker's sub-entry look up unchanged; a snapshot whose
stats items all carry empty per-second mappings leaves the buffer literally
unchanged. -/
theorem C10_fill_join_buffer_frame (data : Snapshot) (jb : JoinBuffer) :
    (∀ ts : String, ts ∉ snapshotTimestamps data →
      dlookup ts (fill_join_buffer jb data) = dlookup ts jb) ∧
    (∀ ts w : String, w ≠ data.client_id →
      dlookup w ((dlookup ts (fill_join_buffer jb data)).getD []) =
        dlookup w ((dlookup ts jb).getD [])) ∧
    ((∀ item ∈ data.stats, item.num_reqs_per_sec = []) → fill_join_buffer jb data = jb) :=
  ⟨fun ts hts => fill_lookup_other_ts data jb ts hts,
   fun ts w hw => fill_lookup_other_worker data jb hw ts,
   fill_join_buffer_empty_maps data jb⟩

/-- A snapshot whose only stats item has an empty per-second mapping. -/
def exSnapEmpty : Snapshot := ⟨"C", 1, [⟨"lbl", [], 0, 0⟩]⟩

/-- Witness for C10 at a concrete buffer: an untouched timestamp, an untouched
worker entry, and an all-empty snapshot. -/
theorem C10_fill_join_buffer_frame_witness :
    ("999" ∉ snapshotTimestamps exSnapA ∧
      dlookup "999" (fill_join_buffer exBufferAB exSnapA) = dlookup "999" exBufferAB) ∧
    ("B" ≠ exSnapA.client_id ∧
      dlookup "B" ((dlookup "101" (fill_join_buffer exBufferAB exSnapA)).getD []) =
        dlookup "B" ((dlookup "101" exBufferAB).getD [])) ∧
    ((∀ item ∈ exSnapEmpty.stats, item.num_reqs_per_sec = []) ∧
      fill_join_buffer exBufferAB exSnapEmpty = exBufferAB) :=
  ⟨⟨by decide, (C10_fill_join_buffer_frame exSnapA exBufferAB).1 "999" (by decide)⟩,
   ⟨by decide, (C10_fill_join_buffer_frame exSnapA exBufferAB).2.1 "101" "B" (by decide)⟩,
   ⟨by decide, (C10_fill_join_buffer_frame exSnapEmpty exBufferAB).2.2 (by decide)⟩⟩

/-! The division guard of the merger. -/

theorem dlookup_dinsert {α β : Type} [DecidableEq α] (k k' : α) (v : β) (l : List (α × β)) :
    dlookup k' (dinsert k v l) = if k' = k then some v else dlookup k' l := by
  by_cases h : k' = k
  · rw [if_pos h, h, dlookup_dinsert_self]
  · rw [if_neg h, dlookup_dinsert_other h]

theorem kpiset_from_item_zero_requests (ts : String) (uc : Nat) (item : StatsItem)
    (h : item.num_requests = 0) :
    kpiset_from_item ts uc item =
      { sample_count := (dlookup ts item.num_reqs_per_sec).getD 0,
        concurrency := uc, sum_rt := 0 } := by
  rw [kpiset_from_item]
  simp [h]

theorem point_from_locust_zero_requests (ts sid : String) (data : Snapshot)
    (h : ∀ item ∈ data.stats, item.num_requests = 0) :
    ∀ (nm : String) (k : KPISet),
      dlookup nm (point_from_locust ts sid data).current = some k → k.sum_rt = 0 := by
  have key : ∀ (stats : List StatsItem), (∀ item ∈ stats, item.num_requests = 0) →
      ∀ (acc : List (String × KPISet) × KPISet),
      (∀ (nm : String) (k : KPISet), dlookup nm acc.1 = some k → k.sum_rt = 0) →
      acc.2.sum_rt = 0 →
      (∀ (nm : String) (k : KPISet),
        dlookup nm (stats.foldl
          (fun (acc : List (String × KPISet) × KPISet) item =>
            if (dlookup ts item.num_reqs_per_sec).isSome then
              (dinsert item.name (kpiset_from_item ts data.user_count item) acc.1,
                merge_kpis acc.2 (kpiset_from_item ts data.user_count item))
            else acc) acc).1 = some k → k.sum_rt = 0) ∧
      (stats.foldl
          (fun (acc : List (String × KPISet) × KPISet) item =>
            if (dlookup ts item.num_reqs_per_sec).isSome then
              (dinsert item.name (kpiset_from_item ts data.user_count item) acc.1,
                merge_kpis acc.2 (kpiset_from_item ts data.user_count item))
            else acc) acc).2.sum_rt = 0 := by
    intro stats
    induction stats with
    | nil => intro _ acc h1 h2; exact ⟨h1, h2⟩
    | cons item t ih =>
      intro hst acc h1 h2
      rw [List.foldl_cons]
      have hz : (kpiset_from_item ts data.user_count item).sum_rt = 0 := by
        rw [kpiset_from_item_zero_requests ts data.user_count item (hst item (by simp))]
      refine ih (fun i hi => hst i (by simp [hi])) _ ?_ ?_
      · intro nm k hk
        by_cases hsome : (dlookup ts item.num_reqs_per_sec).isSome
        · rw [if_pos hsome] at hk
          rw [dlookup_dinsert] at hk
          by_cases hnm : nm = item.name
          · rw [if_pos hnm] at hk
            cases hk
            exact hz
          · rw [if_neg hnm] at hk
            exact h1 nm k hk
        · rw [if_neg hsome] at hk
          exact h1 nm k hk
      · by_cases hsome : (dlookup ts item.num_reqs_per_sec).isSome
        · rw [if_pos hsome]
          show (merge_kpis acc.2 _).sum_rt = 0
          rw [merge_kpis]
          show acc.2.sum_rt + _ = 0
          rw [h2, hz, add_zero]
        · rw [if_neg hsome]
          exact h2
  intro nm k hk
  have hres := key data.stats h ([], KPISet.empty)
    (fun _ _ hx => Option.noConfusion hx) rfl
  rw [point_from_locust] at hk
  simp only [DataPoint.recalculate] at hk
  rw [dlookup_dinsert] at hk
  by_cases hnm : nm = ""
  · rw [if_pos hnm] at hk
    cases hk
    exact hres.2
  · rw [if_neg hnm] at hk
    exact hres.1 nm k hk

/-- C9: when a label's cumulative total request count is zero, the merger
skips the response-time computation (`if item['num_requests']:` in locustio.py
line 278): the built metric set keeps the default weighted response-time sum
of zero instead of dividing by zero, and consequently every metric set of a
`DataPoint` built from a snapshot all of whose labels report zero cumulative
requests — named labels and the combined pseudo-label alike — has a zero
weighted response-time sum.  Building the point is total: no error case
exists. -/
theorem C9_zero_requests_skips_response_time (ts : String) (uc : Nat) (item : StatsItem)
    (h : item.num_requests = 0) :
    kpiset_from_item ts uc item =
      { sample_count := (dlookup ts item.num_reqs_per_sec).getD 0,
        concurrency := uc, sum_rt := 0 } ∧
    ∀ (sid : String) (data : Snapshot), (∀ it ∈ data.stats, it.num_requests = 0) →
      ∀ (nm : String) (k : KPISet),
        dlookup nm (point_from_locust ts sid data).current = some k → k.sum_rt = 0 :=
  ⟨kpiset_from_item_zero_requests ts uc item h,
   fun sid data hz => point_from_locust_zero_requests ts sid data hz⟩

/-- A stats item reporting 5 requests in second 100 with zero cumulative
requests (and a non-zero cumulative response time that must be ignored). -/
def exItemZero : StatsItem := ⟨"lbl", [("100", 5)], 0, 777⟩

/-- Witness for C9 at a concrete item and snapshot. -/
theorem C9_zero_requests_skips_response_time_witness :
    exItemZero.num_requests = 0 ∧
    (kpiset_from_item "100" 3 exItemZero =
      { sample_count := (dlookup "100" exItemZero.num_reqs_per_sec).getD 0,
        concurrency := 3, sum_rt := 0 } ∧
    ∀ (sid : String) (data : Snapshot), (∀ it ∈ data.stats, it.num_requests = 0) →
      ∀ (nm : String) (k : KPISet),
        dlookup nm (point_from_locust "100" sid data).current = some k → k.sum_rt = 0) :=
  ⟨by decide, C9_zero_requests_skips_response_time "100" 3 exItemZero (by decide)⟩

/-! Properties of the tailer's line splitting. -/

theorem processChars_decoded_lines (jloads : List Char → Option Snapshot) :
    ∀ (buf cur : List Char) (jb : JoinBuffer), '\n' ∉ cur →
      ∀ l ∈ (processChars jloads cur buf jb).decoded,
        l ≠ [] ∧ l.getLast? = some '\n' ∧ '\n' ∉ l.dropLast := by
  intro buf
  induction buf with
  | nil => intro cur jb _ l hl; simp [processChars] at hl
  | cons c cs ih =>
    intro cur jb hcur l hl
    rw [processChars] at hl
    by_cases hc : c = '\n'
    · rw [if_pos hc] at hl
      cases hjl : jloads (cur ++ ['\n']) with
      | none =>
        rw [hjl] at hl
        simp only [List.mem_singleton] at hl
        subst hl
        refine ⟨by simp, List.getLast?_concat cur, by rwa [List.dropLast_concat]⟩
      | some d =>
        rw [hjl] at hl
        simp only [List.mem_cons] at hl
        rcases hl with rfl | hl
        · refine ⟨by simp, List.getLast?_concat cur, by rwa [List.dropLast_concat]⟩
        · exact ih [] (fill_join_buffer jb d) (by simp) l hl
    · rw [if_neg hc] at hl
      have hcur2 : '\n' ∉ cur ++ [c] := by
        intro hh
        rcases List.mem_append.1 hh with hh | hh
        · exact hcur hh
        · have h2 : '\n' = c := by simpa using hh
          exact hc h2.symm
      exact ih (cur ++ [c]) jb hcur2 l hl

theorem processChars_join_decomposition (jloads : List Char → Option Snapshot) :
    ∀ (buf cur : List Char) (jb : JoinBuffer),
      (processChars jloads cur buf jb).decoded.flatten ++
          (processChars jloads cur buf jb).read_buffer = cur ++ buf := by
  intro buf
  induction buf with
  | nil => intro cur jb; simp [processChars]
  | cons c cs ih =>
    intro cur jb
    rw [processChars]
    by_cases hc : c = '\n'
    · rw [if_pos hc]
      cases hjl : jloads (cur ++ ['\n']) with
      | none => subst hc; simp
      | some d =>
        have ihx := ih [] (fill_join_buffer jb d)
        rw [List.nil_append] at ihx
        subst hc
        simp [List.append_assoc, ihx]
    · rw [if_neg hc]
      rw [ih (cur ++ [c]) jb]
      simp

theorem processChars_rest_no_newline (jloads : List Char → Option Snapshot) :
    ∀ (buf cur : List Char) (jb : JoinBuffer), '\n' ∉ cur →
      (processChars jloads cur buf jb).raised = false →
      '\n' ∉ (processChars jloads cur buf jb).read_buffer := by
  intro buf
  induction buf with
  | nil => intro cur jb hcur _; exact hcur
  | cons c cs ih =>
    intro cur jb hcur hraised
    rw [processChars] at hraised ⊢
    by_cases hc : c = '\n'
    · rw [if_pos hc] at hraised ⊢
      cases hjl : jloads (cur ++ ['\n']) with
      | none => rw [hjl] at hraised; exact Bool.noConfusion hraised
      | some d => rw [hjl] at hraised; exact ih [] (fill_join_buffer jb d) (by simp) hraised
    · rw [if_neg hc] at hraised ⊢
      have hcur2 : '\n' ∉ cur ++ [c] := by
        intro hh
        rcases List.mem_append.1 hh with hh | hh
        · exact hcur hh
        · have h2 : '\n' = c := by simpa using hh
          exact hc h2.symm
      exact ih (cur ++ [c]) jb hcur2 hraised

theorem processChars_append (jloads : List Char → Option Snapshot) (inc : List Char) :
    ∀ (buf cur : List Char) (jb : JoinBuffer),
      (processChars jloads cur buf jb).raised = false →
      processChars jloads cur (buf ++ inc) jb =
        ⟨(processChars jloads (processChars jloads cur buf jb).read_buffer inc
            (processChars jloads cur buf jb).jb).read_buffer,
         (processChars jloads (processChars jloads cur buf jb).read_buffer inc
            (processChars jloads cur buf jb).jb).jb,
         (processChars jloads (processChars jloads cur buf jb).read_buffer inc
            (processChars jloads cur buf jb).jb).raised,
         (processChars jloads cur buf jb).decoded ++
           (processChars jloads (processChars jloads cur buf jb).read_buffer inc
              (processChars jloads cur buf jb).jb).decoded⟩ := by
  intro buf
  induction buf with
  | nil => intro cur jb _; rfl
  | cons c cs ih =>
    intro cur jb hraised
    rw [processChars] at hraised
    rw [List.cons_append, processChars, processChars]
    by_cases hc : c = '\n'
    · simp only [if_pos hc] at hraised ⊢
      cases hjl : jloads (cur ++ ['\n']) with
      | none => rw [hjl] at hraised; exact Bool.noConfusion hraised
      | some d =>
        rw [hjl] at hraised
        have ihx := ih [] (fill_join_buffer jb d) hraised
        show (⟨(processChars jloads [] (cs ++ inc) (fill_join_buffer jb d)).read_buffer,
               (processChars jloads [] (cs ++ inc) (fill_join_buffer jb d)).jb,
               (processChars jloads [] (cs ++ inc) (fill_join_buffer jb d)).raised,
               (cur ++ ['\n']) ::
                 (processChars jloads [] (cs ++ inc) (fill_join_buffer jb d)).decoded⟩ :
              LoopResult) =
            ⟨(processChars jloads (processChars jloads [] cs (fill_join_buffer jb d)).read_buffer
                inc (processChars jloads [] cs (fill_join_buffer jb d)).jb).read_buffer,
             (processChars jloads (processChars jloads [] cs (fill_join_buffer jb d)).read_buffer
                inc (processChars jloads [] cs (fill_join_buffer jb d)).jb).jb,
             (processChars jloads (processChars jloads [] cs (fill_join_buffer jb d)).read_buffer
                inc (processChars jloads [] cs (fill_join_buffer jb d)).jb).raised,
             ((cur ++ ['\n']) :: (processChars jloads [] cs (fill_join_buffer jb d)).decoded) ++
               (processChars jloads
                  (processChars jloads [] cs (fill_join_buffer jb d)).read_buffer inc
                  (processChars jloads [] cs (fill_join_buffer jb d)).jb).decoded⟩
        rw [ihx]
        simp
    · simp only [if_neg hc] at hraised ⊢
      exact ih (cur ++ [c]) jb hraised

/-- The continuation of the scan after an unterminated fragment: starting a
fresh scan on the fragment followed by the next increment is the same as
resuming the scan with the fragment as the current line. -/
theorem processChars_shift (jloads : List Char → Option Snapshot) :
    ∀ (pre cur inc : List Char) (jb : JoinBuffer), '\n' ∉ pre →
      processChars jloads cur (pre ++ inc) jb = processChars jloads (cur ++ pre) inc jb := by
  intro pre
  induction pre with
  | nil => intro cur inc jb _; rw [List.nil_append, List.append_nil]
  | cons c cs ih =>
    intro cur inc jb hpre
    have hc : c ≠ '\n' := fun h => hpre (by simp [h])
    have hcs : '\n' ∉ cs := fun h => hpre (by simp [h])
    rw [List.cons_append, processChars, if_neg hc, ih (cur ++ [c]) inc jb hcs,
      List.append_assoc]
    rfl

/-- C6: the tailer decodes only complete lines.  For every buffer content and
every decoder: (1) every line handed to the decoder is non-empty, ends with
the newline that completed it, and contains no earlier newline — so splitting
happens only at newline boundaries; (2) the decoded lines followed by the
retained fragment reassemble the input exactly — nothing is lost or
reordered; (3) when no decode error interrupts the loop, the retained
carry-over fragment contains no newline — an unterminated trailing fragment is
never handed to the decoder; (4) the fragment is prepended to the next
increment: processing `buf ++ inc` decodes exactly the lines of `buf` followed
by the lines of `fragment ++ inc`, so each line is decoded at most once and
only after its terminator has arrived. -/
theorem C6_tailer_splits_only_at_newlines (jloads : List Char → Option Snapshot)
    (buf : List Char) (jb : JoinBuffer) :
    (∀ l ∈ (processLines jloads buf jb).decoded,
        l ≠ [] ∧ l.getLast? = some '\n' ∧ '\n' ∉ l.dropLast) ∧
    ((processLines jloads buf jb).decoded.flatten ++
        (processLines jloads buf jb).read_buffer = buf) ∧
    ((processLines jloads buf jb).raised = false →
      '\n' ∉ (processLines jloads buf jb).read_buffer) ∧
    ((processLines jloads buf jb).raised = false → ∀ inc : List Char,
      processLines jloads (buf ++ inc) jb =
        ⟨(processLines jloads ((processLines jloads buf jb).read_buffer ++ inc)
            (processLines jloads buf jb).jb).read_buffer,
         (processLines jloads ((processLines jloads buf jb).read_buffer ++ inc)
            (processLines jloads buf jb).jb).jb,
         (processLines jloads ((processLines jloads buf jb).read_buffer ++ inc)
            (processLines jloads buf jb).jb).raised,
         (processLines jloads buf jb).decoded ++
           (processLines jloads ((processLines jloads buf jb).read_buffer ++ inc)
              (processLines jloads buf jb).jb).decoded⟩) := by
  refine ⟨processChars_decoded_lines jloads buf [] jb (by simp),
    processChars_join_decomposition jloads buf [] jb,
    processChars_rest_no_newline jloads buf [] jb (by simp), ?_⟩
  intro hraised inc
  have hfrag : '\n' ∉ (processChars jloads [] buf jb).read_buffer :=
    processChars_rest_no_newline jloads buf [] jb (by simp) hraised
  simp only [processLines]
  rw [processChars_append jloads inc buf [] jb hraised,
    processChars_shift jloads ((processChars jloads [] buf jb).read_buffer) [] inc
      ((processChars jloads [] buf jb).jb) hfrag, List.nil_append]

/-- Witness for C6 on a concrete stream: the buffer `a\nxy` decodes exactly
the line `a\n`, retains the fragment `xy`, and composing with the increment
`\nb` decodes the completed line `xy\n` next. -/
theorem C6_tailer_splits_only_at_newlines_witness :
    (∀ l ∈ (processLines exDecode ['a', '\n', 'x', 'y'] []).decoded,
        l ≠ [] ∧ l.getLast? = some '\n' ∧ '\n' ∉ l.dropLast) ∧
    ((processLines exDecode ['a', '\n', 'x', 'y'] []).decoded.flatten ++
        (processLines exDecode ['a', '\n', 'x', 'y'] []).read_buffer =
      ['a', '\n', 'x', 'y']) ∧
    ('\n' ∉ (processLines exDecode ['a', '\n', 'x', 'y'] []).read_buffer) ∧
    (processLines exDecode (['a', '\n', 'x', 'y'] ++ ['\n', 'b']) [] =
      ⟨(processLines exDecode
          ((processLines exDecode ['a', '\n', 'x', 'y'] []).read_buffer ++ ['\n', 'b'])
          (processLines exDecode ['a', '\n', 'x', 'y'] []).jb).read_buffer,
       (processLines exDecode
          ((processLines exDecode ['a', '\n', 'x', 'y'] []).read_buffer ++ ['\n', 'b'])
          (processLines exDecode ['a', '\n', 'x', 'y'] []).jb).jb,
       (processLines exDecode
          ((processLines exDecode ['a', '\n', 'x', 'y'] []).read_buffer ++ ['\n', 'b'])
          (processLines exDecode ['a', '\n', 'x', 'y'] []).jb).raised,
       (processLines exDecode ['a', '\n', 'x', 'y'] []).decoded ++
         (processLines exDecode
            ((processLines exDecode ['a', '\n', 'x', 'y'] []).read_buffer ++ ['\n', 'b'])
            (processLines exDecode ['a', '\n', 'x', 'y'] []).jb).decoded⟩) := by
  have h := C6_tailer_splits_only_at_newlines exDecode ['a', '\n', 'x', 'y'] []
  exact ⟨h.1, h.2.1, h.2.2.1 (by decide), h.2.2.2 (by decide) ['\n', 'b']⟩

/-- C7, code_bug: the decode loop calls `json.loads` with no exception
handler (locustio.py line 215), so a malformed line is not skipped: the
exception aborts the poll.  On the buffer `a\n z\n a\n` (with `z\n`
malformed): the poll raises, yields no records — not even for the valid first
line already ingested — and leaves the second valid line undecoded in the
read buffer; exactly the lines up to and including the corrupt one were handed
to the decoder.  Only because the corrupt line was consumed before the raise
does a subsequent poll process the remaining valid line and emit its record. -/
theorem C7_decode_error_aborts_poll_instead_of_skipping :
    (poll exDecode 1 (some ['a', '\n', 'z', '\n', 'a', '\n']) initState).raised = true ∧
    (poll exDecode 1 (some ['a', '\n', 'z', '\n', 'a', '\n']) initState).points = [] ∧
    (poll exDecode 1 (some ['a', '\n', 'z', '\n', 'a', '\n']) initState).state.read_buffer =
      ['a', '\n'] ∧
    (poll exDecode 1 (some ['a', '\n', 'z', '\n', 'a', '\n'])
        initState).state.join_buffer.map Prod.fst = ["100"] ∧
    (processLines exDecode ['a', '\n', 'z', '\n', 'a', '\n'] []).decoded =
      [['a', '\n'], ['z', '\n']] ∧
    (poll exDecode 1 (some [])
        (poll exDecode 1 (some ['a', '\n', 'z', '\n', 'a', '\n'])
          initState).state).points.map DataPoint.ts = [100] := by
  refine ⟨by decide, by decide, by decide, by decide, by decide, by decide⟩

/-! Algebra of the metric-set merge. -/

theorem merge_kpis_comm (a b : KPISet) : merge_kpis a b = merge_kpis b a := by
  simp only [merge_kpis, KPISet.mk.injEq]
  exact ⟨Nat.add_comm _ _, Nat.add_comm _ _, add_comm _ _⟩

theorem merge_kpis_assoc (a b c : KPISet) :
    merge_kpis (merge_kpis a b) c = merge_kpis a (merge_kpis b c) := by
  simp only [merge_kpis, KPISet.mk.injEq]
  exact ⟨Nat.add_assoc _ _ _, Nat.add_assoc _ _ _, add_assoc _ _ _⟩

/-- The effect of `merge_point` on one label: combine the two sides' optional
metric sets — keep the present one, merge when both are present. -/
def optMerge : Option KPISet → Option KPISet → Option KPISet
  | none, y => y
  | some x, none => some x
  | some x, some y => some (merge_kpis x y)

theorem optMerge_none_right : ∀ x : Option KPISet, optMerge x none = x
  | none => rfl
  | some _ => rfl

theorem optMerge_comm (x y : Option KPISet) : optMerge x y = optMerge y x := by
  cases x <;> cases y <;> simp [optMerge, merge_kpis_comm]

theorem optMerge_assoc (x y z : Option KPISet) :
    optMerge (optMerge x y) z = optMerge x (optMerge y z) := by
  cases x <;> cases y <;> cases z <;> simp [optMerge, merge_kpis_assoc]

theorem optMerge_right_comm (z x y : Option KPISet) :
    optMerge (optMerge z x) y = optMerge (optMerge z y) x := by
  rw [optMerge_assoc, optMerge_assoc, optMerge_comm x y]

theorem dlookup_eq_none_of_not_mem {α β : Type} [DecidableEq α] {k : α} {l : List (α × β)}
    (h : k ∉ l.map Prod.fst) : dlookup k l = none := by
  cases hl : dlookup k l with
  | none => rfl
  | some v =>
    exact absurd (mem_keys_of_dlookup_isSome (by simp [hl])) h

theorem merge_point_lookup (a b : DataPoint)
    (hb : (b.current.map Prod.fst).Nodup) (nm : String) :
    dlookup nm (merge_point a b).current =
      optMerge (dlookup nm a.current) (dlookup nm b.current) := by
  rw [merge_point]
  have key : ∀ (bl : List (String × KPISet)), (bl.map Prod.fst).Nodup →
      ∀ (acc : List (String × KPISet)),
      dlookup nm (bl.foldl (fun acc p =>
        match dlookup p.1 acc with
        | some k => dinsert p.1 (merge_kpis k p.2) acc
        | none => dinsert p.1 p.2 acc) acc) =
        optMerge (dlookup nm acc) (dlookup nm bl) := by
    intro bl
    induction bl with
    | nil => intro _ acc; rw [List.foldl_nil]; exact (optMerge_none_right _).symm
    | cons p t ih =>
      intro hnd acc
      have hp : p.1 ∉ t.map Prod.fst := (List.nodup_cons.1 hnd).1
      have hnd' : (t.map Prod.fst).Nodup := (List.nodup_cons.1 hnd).2
      rw [List.foldl_cons, ih hnd']
      by_cases hnm : nm = p.1
      · subst hnm
        have ht : dlookup p.1 t = none := dlookup_eq_none_of_not_mem hp
        have hcons : dlookup p.1 (p :: t) = some p.2 := if_pos rfl
        rw [ht, optMerge_none_right, hcons]
        cases hda : dlookup p.1 acc with
        | none => rw [dlookup_dinsert_self]; rfl
        | some k => rw [dlookup_dinsert_self]; rfl
      · have hcons : dlookup nm (p :: t) = dlookup nm t := if_neg (fun h => hnm h.symm)
        rw [hcons]
        cases hda : dlookup p.1 acc with
        | none => rw [dlookup_dinsert_other hnm]
        | some k => rw [dlookup_dinsert_other hnm]
  exact key b.current hb a.current

theorem point_from_locust_current_nodup (ts sid : String) (data : Snapshot) :
    ((point_from_locust ts sid data).current.map Prod.fst).Nodup := by
  rw [point_from_locust]
  have key : ∀ (stats : List StatsItem) (acc : List (String × KPISet) × KPISet),
      (acc.1.map Prod.fst).Nodup →
      (((stats.foldl (fun (acc : List (String × KPISet) × KPISet) item =>
          if (dlookup ts item.num_reqs_per_sec).isSome then
            (dinsert item.name (kpiset_from_item ts data.user_count item) acc.1,
              merge_kpis acc.2 (kpiset_from_item ts data.user_count item))
          else acc) acc).1).map Prod.fst).Nodup := by
    intro stats
    induction stats with
    | nil => intro acc h; exact h
    | cons item t ih =>
      intro acc h
      rw [List.foldl_cons]
      by_cases hs : (dlookup ts item.num_reqs_per_sec).isSome
      · rw [if_pos hs]
        exact ih _ (nodup_keys_dinsert _ _ h)
      · rw [if_neg hs]
        exact ih _ h
  exact nodup_keys_dinsert _ _ (key data.stats ([], KPISet.empty) (by simp))

theorem merge_second_lookup (ts nm : String) (sec : List (String × Snapshot)) :
    dlookup nm (merge_second ts sec).current =
      (sec.map (fun c => dlookup nm (point_from_locust ts c.1 c.2).current)).foldl
        optMerge none := by
  have key : ∀ (sec : List (String × Snapshot)) (init : DataPoint),
      dlookup nm ((sec.foldl (fun point p =>
          merge_point point (point_from_locust ts p.1 p.2)) init).current) =
        (sec.map (fun c => dlookup nm (point_from_locust ts c.1 c.2).current)).foldl
          optMerge (dlookup nm init.current) := by
    intro sec
    induction sec with
    | nil => intro init; rfl
    | cons c t ih =>
      intro init
      rw [List.foldl_cons, ih, List.map_cons, List.foldl_cons,
        merge_point_lookup init _ (point_from_locust_current_nodup ts c.1 c.2) nm]
  rw [merge_second]
  simp only [DataPoint.recalculate]
  exact key sec ⟨tsVal ts, none, []⟩

/-- C4: the metric-set merge is commutative and associative, and consequently
the Finalized Record built for a timestamp does not depend on the order of the
contributing worker snapshots: for any permutation of the contributions, the
merged record has the same timestamp and, under every label, the same metric
set. -/
theorem C4_merge_commutative_associative_and_order_invariant :
    (∀ A B : KPISet, merge_kpis A B = merge_kpis B A) ∧
    (∀ A B C : KPISet, merge_kpis (merge_kpis A B) C = merge_kpis A (merge_kpis B C)) ∧
    ∀ (ts : String) (sec1 sec2 : List (String × Snapshot)), sec1.Perm sec2 →
      (merge_second ts sec1).ts = (merge_second ts sec2).ts ∧
      ∀ nm : String,
        dlookup nm (merge_second ts sec1).current =
          dlookup nm (merge_second ts sec2).current := by
  refine ⟨merge_kpis_comm, merge_kpis_assoc, ?_⟩
  intro ts sec1 sec2 hperm
  refine ⟨by rw [merge_second_ts, merge_second_ts], ?_⟩
  intro nm
  rw [merge_second_lookup ts nm sec1, merge_second_lookup ts nm sec2]
  exact (hperm.map _).foldl_eq' (fun x _ y _ z => optMerge_right_comm z x y) none

/-- Witness for C4: merging the two workers' contributions to second 101 in
either order yields the same metric set under the label and under the
combined pseudo-label. -/
theorem C4_merge_commutative_associative_and_order_invariant_witness :
    ([("A", exSnapA2), ("B", exSnapB)] : List (String × Snapshot)).Perm
        [("B", exSnapB), ("A", exSnapA2)] ∧
    dlookup "lbl" (merge_second "101" [("A", exSnapA2), ("B", exSnapB)]).current =
      dlookup "lbl" (merge_second "101" [("B", exSnapB), ("A", exSnapA2)]).current ∧
    dlookup "" (merge_second "101" [("A", exSnapA2), ("B", exSnapB)]).current =
      dlookup "" (merge_second "101" [("B", exSnapB), ("A", exSnapA2)]).current :=
  ⟨by decide,
   ((C4_merge_commutative_associative_and_order_invariant.2.2 "101"
      [("A", exSnapA2), ("B", exSnapB)] [("B", exSnapB), ("A", exSnapA2)]
      (by decide)).2 "lbl"),
   ((C4_merge_commutative_associative_and_order_invariant.2.2 "101"
      [("A", exSnapA2), ("B", exSnapB)] [("B", exSnapB), ("A", exSnapA2)]
      (by decide)).2 "")⟩

/-! Field-level characterization of the per-label metric sets. -/

theorem kpiset_from_item_eq (ts : String) (uc : Nat) (item : StatsItem) (cnt : Nat)
    (hc : dlookup ts item.num_reqs_per_sec = some cnt) (hnz : item.num_requests ≠ 0) :
    kpiset_from_item ts uc item =
      ⟨cnt, uc, (cnt : ℚ) * (msToSeconds item.total_response_time / (item.num_requests : ℚ))⟩ := by
  rw [kpiset_from_item]
  simp [hc, hnz]

theorem pfl_fold_lookup_notmem (ts : String) (uc : Nat) :
    ∀ (stats : List StatsItem) (acc : List (String × KPISet) × KPISet) (nm : String),
      nm ∉ stats.map StatsItem.name →
      dlookup nm ((stats.foldl (fun (acc : List (String × KPISet) × KPISet) it =>
          if (dlookup ts it.num_reqs_per_sec).isSome then
            (dinsert it.name (kpiset_from_item ts uc it) acc.1,
              merge_kpis acc.2 (kpiset_from_item ts uc it))
          else acc) acc).1) = dlookup nm acc.1 := by
  intro stats
  induction stats with
  | nil => intro acc nm _; rfl
  | cons it t ih =>
    intro acc nm hnm
    have h1 : nm ≠ it.name := fun h => hnm (by simp [h])
    have h2 : nm ∉ t.map StatsItem.name := fun h => hnm (by simp [h])
    rw [List.foldl_cons]
    by_cases hs : (dlookup ts it.num_reqs_per_sec).isSome
    · rw [if_pos hs, ih _ nm h2]
      exact dlookup_dinsert_other h1 _ _
    · rw [if_neg hs, ih _ nm h2]

theorem pfl_fold_lookup (ts : String) (uc : Nat) :
    ∀ (stats : List StatsItem), (stats.map StatsItem.name).Nodup →
      ∀ (acc : List (String × KPISet) × KPISet), ∀ item ∈ stats,
      (dlookup ts item.num_reqs_per_sec).isSome →
      dlookup item.name ((stats.foldl (fun (acc : List (String × KPISet) × KPISet) it =>
          if (dlookup ts it.num_reqs_per_sec).isSome then
            (dinsert it.name (kpiset_from_item ts uc it) acc.1,
              merge_kpis acc.2 (kpiset_from_item ts uc it))
          else acc) acc).1) = some (kpiset_from_item ts uc item) := by
  intro stats
  induction stats with
  | nil => intro _ acc item hitem; simp at hitem
  | cons it t ih =>
    intro hnd acc item hitem hsome
    have hn1 : it.name ∉ t.map StatsItem.name := (List.nodup_cons.1 hnd).1
    have hnd' : (t.map StatsItem.name).Nodup := (List.nodup_cons.1 hnd).2
    rw [List.foldl_cons]
    rcases List.mem_cons.1 hitem with rfl | hmem
    · rw [if_pos hsome, pfl_fold_lookup_notmem ts uc t _ item.name hn1]
      exact dlookup_dinsert_self _ _ _
    · by_cases hs : (dlookup ts it.num_reqs_per_sec).isSome
      · rw [if_pos hs]
        exact ih hnd' _ item hmem hsome
      · rw [if_neg hs]
        exact ih hnd' _ item hmem hsome

theorem pfl_fold_overall (ts : String) (uc : Nat) :
    ∀ (stats : List StatsItem) (acc : List (String × KPISet) × KPISet),
      (stats.foldl (fun (acc : List (String × KPISet) × KPISet) it =>
          if (dlookup ts it.num_reqs_per_sec).isSome then
            (dinsert it.name (kpiset_from_item ts uc it) acc.1,
              merge_kpis acc.2 (kpiset_from_item ts uc it))
          else acc) acc).2 =
        ((stats.filter fun i => (dlookup ts i.num_reqs_per_sec).isSome).map
          (kpiset_from_item ts uc)).foldl merge_kpis acc.2 := by
  intro stats
  induction stats with
  | nil => intro acc; rfl
  | cons it t ih =>
    intro acc
    rw [List.foldl_cons, List.filter_cons]
    by_cases hs : (dlookup ts it.num_reqs_per_sec).isSome
    · rw [if_pos hs, if_pos hs, List.map_cons, List.foldl_cons, ih]
    · rw [if_neg hs, if_neg hs, ih]

/-- C5: the Finalized Record built by `point_from_locust` for a timestamp has,
for every contributing label, a metric set whose sample count is that label's
per-second count, whose concurrency is the snapshot's concurrency level, and
whose weighted response-time sum is the per-second count times the cumulative
total response time (converted from milliseconds) divided by the cumulative
total request count; and under the empty pseudo-label it has the merge of all
contributing labels' metric sets.  Hypotheses: the snapshot's label names are
distinct and non-empty (a dict of labels distinct from the overall
pseudo-label) and every label has a non-zero cumulative request count (the
zero case is the subject of C9). -/
theorem C5_record_fields_per_label_and_combined (ts sid : String) (data : Snapshot)
    (hnd : (data.stats.map StatsItem.name).Nodup)
    (hne : ∀ item ∈ data.stats, item.name ≠ "")
    (hnz : ∀ item ∈ data.stats, item.num_requests ≠ 0) :
    (∀ item ∈ data.stats, ∀ cnt : Nat, dlookup ts item.num_reqs_per_sec = some cnt →
      dlookup item.name (point_from_locust ts sid data).current =
        some ⟨cnt, data.user_count,
          (cnt : ℚ) * (msToSeconds item.total_response_time / (item.num_requests : ℚ))⟩) ∧
    dlookup "" (point_from_locust ts sid data).current =
      some (((data.stats.filter fun i => (dlookup ts i.num_reqs_per_sec).isSome).map
          (kpiset_from_item ts data.user_count)).foldl merge_kpis KPISet.empty) := by
  have hplc : (point_from_locust ts sid data).current =
      dinsert ""
        ((data.stats.foldl (fun (acc : List (String × KPISet) × KPISet) it =>
          if (dlookup ts it.num_reqs_per_sec).isSome then
            (dinsert it.name (kpiset_from_item ts data.user_count it) acc.1,
              merge_kpis acc.2 (kpiset_from_item ts data.user_count it))
          else acc) ([], KPISet.empty)).2)
        ((data.stats.foldl (fun (acc : List (String × KPISet) × KPISet) it =>
          if (dlookup ts it.num_reqs_per_sec).isSome then
            (dinsert it.name (kpiset_from_item ts data.user_count it) acc.1,
              merge_kpis acc.2 (kpiset_from_item ts data.user_count it))
          else acc) ([], KPISet.empty)).1) := rfl
  constructor
  · intro item hitem cnt hcnt
    have hsome : (dlookup ts item.num_reqs_per_sec).isSome := by rw [hcnt]; rfl
    rw [hplc, dlookup_dinsert_other (hne item hitem),
      pfl_fold_lookup ts data.user_count data.stats hnd ([], KPISet.empty) item hitem hsome,
      kpiset_from_item_eq ts data.user_count item cnt hcnt (hnz item hitem)]
  · rw [hplc, dlookup_dinsert_self,
      pfl_fold_overall ts data.user_count data.stats ([], KPISet.empty)]

/-- A snapshot of worker A with two named labels contributing to second 100. -/
def exSnapC : Snapshot := ⟨"A", 3, [⟨"x", [("100", 2)], 4, 2000⟩, ⟨"y", [("100", 1)], 2, 500⟩]⟩

/-- Witness for C5 at a concrete two-label snapshot. -/
theorem C5_record_fields_per_label_and_combined_witness :
    ((exSnapC.stats.map StatsItem.name).Nodup ∧
      (∀ item ∈ exSnapC.stats, item.name ≠ "") ∧
      (∀ item ∈ exSnapC.stats, item.num_requests ≠ 0)) ∧
    ((∀ item ∈ exSnapC.stats, ∀ cnt : Nat,
        dlookup "100" item.num_reqs_per_sec = some cnt →
        dlookup item.name (point_from_locust "100" "A" exSnapC).current =
          some ⟨cnt, exSnapC.user_count,
            (cnt : ℚ) * (msToSeconds item.total_response_time / (item.num_requests : ℚ))⟩) ∧
      dlookup "" (point_from_locust "100" "A" exSnapC).current =
        some (((exSnapC.stats.filter fun i =>
              (dlookup "100" i.num_reqs_per_sec).isSome).map
            (kpiset_from_item "100" exSnapC.user_count)).foldl merge_kpis KPISet.empty)) :=
  ⟨⟨by decide, by decide, by decide⟩,
   C5_record_fields_per_label_and_combined "100" "A" exSnapC (by decide) (by decide) (by decide)⟩
